import Mathlib

/-!
Verification of the jedi-language-server core (`jedi_language_server/server.py`)
against its natural-language specification.

The handlers (`lsp_completion`, `lsp_hover`, `lsp_references`, `lsp_rename`,
`lsp_did_change`, `lsp_did_open`) are embedded from the source.  Components the
source delegates to libraries outside this repository (the pygls document
store, the position translator, `server_utils.py`, `type_map.py`) are modelled
from the specification and marked as such in their doc comments.
-/

/-- A protocol position: zero-based line, zero-based character
(characters counted in UTF-16 code units). -/
structure Position where
  line : Nat
  character : Nat
deriving DecidableEq

/-- A protocol range: start and end positions. -/
structure Range where
  start : Position
  stop : Position
deriving DecidableEq

/-- A location: a uri together with a range, as produced for
definition/reference results. -/
structure Location where
  uri : String
  range : Range
deriving DecidableEq

/-- A text edit: replace `range` with `new_text`. -/
structure TextEdit where
  range : Range
  new_text : String
deriving DecidableEq

/-- A workspace edit: a mapping from uri to an ordered list of text edits.
The Python implementation uses a `dict`, whose keys are unique and iterate in
insertion order; it is embedded as an association list with unique keys. -/
structure WorkspaceEdit where
  changes : List (String × List TextEdit)
deriving DecidableEq

/-- A raw analysis-engine result for definition/usage/hover queries: the jedi
`Definition` object, reduced to the fields the server reads.  `docstring` is
the value of the engine's `docstring()` call, which returns the empty string
when no documentation exists. -/
structure Defn where
  uri : String
  range : Range
  docstring : String
deriving DecidableEq

/-- A raw analysis-engine completion result: the jedi `Completion` object,
reduced to the fields the server reads. -/
structure Completion where
  name : String
  type : String
  description : String
  docstring : String
deriving DecidableEq

/-- A protocol completion item, with the fields `lsp_completion` fills. -/
structure CompletionItem where
  label : String
  kind : Nat
  detail : String
  documentation : String
  insert_text : String
deriving DecidableEq

/-- A protocol completion list. -/
structure CompletionList where
  is_incomplete : Bool
  items : List CompletionItem
deriving DecidableEq

/-- A protocol hover result. -/
structure Hover where
  contents : String
deriving DecidableEq

/-- Modelled from the spec: `type_map.get_lsp_type` lives in
`jedi_language_server/type_map.py`, which is not under src/.  Per the spec it
is a fixed lookup table from the engine's type vocabulary into the protocol's
kind enumeration, with an explicit fallback value for any engine kind not
present in the table. -/
def get_lsp_type (t : String) : Nat :=
  let table : List (String × Nat) :=
    [("module", 9), ("class", 7), ("instance", 6), ("function", 3),
     ("param", 6), ("keyword", 14), ("statement", 6), ("import", 9)]
  match table.find? (fun p => p.1 = t) with
  | some p => p.2
  | none => 1

/-- The completion item built for one engine completion, as in the list
comprehension inside `lsp_completion` in `server.py`. -/
def completionItemOf (c : Completion) : CompletionItem :=
  CompletionItem.mk c.name (get_lsp_type c.type) c.description c.docstring c.name

/-- Embeds `lsp_completion` (server.py): build a `CompletionList` with
`is_incomplete := false` and one item per engine completion, in order. -/
def lsp_completion (jedi_completions : List Completion) : CompletionList :=
  CompletionList.mk false (jedi_completions.map completionItemOf)

/-- Embeds `lsp_hover` (server.py): the first definition's docstring when the
engine returned any definition (Python truthiness of the list), otherwise the
literal fallback string. -/
def lsp_hover : List Defn → Hover
  | [] => Hover.mk "No docstring definition found."
  | d :: _ => Hover.mk d.docstring

/-- Modelled from the spec: `locations_from_definitions` lives in
`jedi_language_server/server_utils.py`, which is not under src/.  Per the spec
(§3, LocationSet) it converts each engine definition to a (uri, range) pair,
order-preserving from the engine's result order. -/
def locations_from_definitions (defs : List Defn) : List Location :=
  defs.map (fun d => Location.mk d.uri d.range)

/-- One step of the grouping loop in `lsp_rename` (server.py): if the uri is
already a key of the changes dict, append the edit to its list, otherwise add
the uri as a new (last) key with a singleton list. -/
def addEdit : List (String × List TextEdit) → String → TextEdit →
    List (String × List TextEdit)
  | [], uri, e => [(uri, [e])]
  | p :: rest, uri, e =>
    if p.1 = uri then (p.1, p.2 ++ [e]) :: rest
    else p :: addEdit rest uri e

/-- The `for location in locations` loop of `lsp_rename` (server.py). -/
def renameLoop (newName : String) :
    List (String × List TextEdit) → List Location → List (String × List TextEdit)
  | changes, [] => changes
  | changes, loc :: rest =>
    renameLoop newName (addEdit changes loc.uri (TextEdit.mk loc.range newName)) rest

/-- Embeds `lsp_rename` (server.py) from the converted location list on:
`None` when there are no locations, otherwise the grouped workspace edit. -/
def lsp_rename (locations : List Location) (newName : String) :
    Option WorkspaceEdit :=
  if locations.isEmpty then none
  else some (WorkspaceEdit.mk (renameLoop newName [] locations))

/-- Specification-side helper: insert a key at the end unless already present
(the key order a Python dict produces). -/
def insKey (ks : List String) (u : String) : List String :=
  if u ∈ ks then ks else ks ++ [u]

/-- Specification-side helper: the distinct uris of a list in first-seen
order. -/
def firstSeen : List String → List String :=
  fun us => us.foldl insKey []

/-- Specification-side helper: the edit list stored under a uri key of the
changes mapping (empty when the uri is not a key). -/
def findEdits : List (String × List TextEdit) → String → List TextEdit
  | [], _ => []
  | p :: rest, u => if p.1 = u then p.2 else findEdits rest u

/-- A content change of a did-change notification: either a full-document
replacement or a range-based incremental edit. -/
inductive ContentChange where
  | full (text : String)
  | incremental (range : Range) (text : String)
deriving DecidableEq

/-- The error taxonomy of the specification (§7). -/
inductive StoreError where
  | UnknownDocument
  | DuplicateDocument
  | UnsupportedSyncMode
deriving DecidableEq

/-- A tracked document: uri, full text and version. -/
structure Document where
  uri : String
  text : String
  version : Nat
deriving DecidableEq

/-- The document store's state: the tracked documents. -/
abbrev Store : Type := List Document

/-- Look a document up by uri. -/
def lookupDoc : Store → String → Option Document
  | [], _ => none
  | d :: rest, uri => if d.uri = uri then some d else lookupDoc rest uri

/-- Replace the document tracked under `uri`. -/
def updateDoc : Store → String → Document → Store
  | [], _, _ => []
  | d :: rest, uri, d' =>
    if d.uri = uri then d' :: rest else d :: updateDoc rest uri d'

/-- Modelled from the spec: applying one content change to a document (the
pygls `Document.apply_change`, not under src/).  Per §4.1 the store supports
only full-document replacement, rejecting range-based incremental payloads
with `UnsupportedSyncMode`; per §3 the version increases with every applied
change. -/
def applyChangeDoc (d : Document) : ContentChange → Except StoreError Document
  | ContentChange.full t => Except.ok (Document.mk d.uri t (d.version + 1))
  | ContentChange.incremental _ _ => Except.error StoreError.UnsupportedSyncMode

/-- Apply an ordered list of content changes to a document, stopping at the
first error. -/
def applyChanges (d : Document) : List ContentChange → Except StoreError Document
  | [] => Except.ok d
  | c :: cs =>
    match applyChangeDoc d c with
    | Except.ok d' => applyChanges d' cs
    | Except.error e => Except.error e

/-- Modelled from the spec: the store's `applyChange(uri, changes, ...)`
operation (§4.1; the pygls workspace, not under src/): fails with
`UnknownDocument` when the uri is not tracked, otherwise applies the changes
to the tracked document. -/
def applyChange (s : Store) (uri : String) (cs : List ContentChange) :
    Except StoreError Store :=
  match lookupDoc s uri with
  | none => Except.error StoreError.UnknownDocument
  | some d => (applyChanges d cs).map (fun d' => updateDoc s uri d')

/-- The `for change in params.contentChanges` loop of `lsp_did_change`
(server.py): one `workspace.update_document` call per change, in order. -/
def didChangeLoop : Store → String → List ContentChange → Except StoreError Store
  | s, _, [] => Except.ok s
  | s, uri, c :: cs =>
    match applyChange s uri [c] with
    | Except.ok s' => didChangeLoop s' uri cs
    | Except.error e => Except.error e

/-- Embeds `lsp_did_change` (server.py): `if params.contentChanges` guards the
loop, so an empty change list does nothing at all. -/
def lsp_did_change (s : Store) (uri : String) (changes : List ContentChange) :
    Except StoreError Store :=
  if changes.isEmpty then Except.ok s
  else didChangeLoop s uri changes

/-- Modelled from the spec: the store's `open(uri, initial_text, version)`
operation (§4.1; the pygls `workspace.put_document`, not under src/): it
registers a new document and fails with `DuplicateDocument` when the uri is
already tracked. -/
def open_document (s : Store) (uri text : String) (version : Nat) :
    Except StoreError Store :=
  match lookupDoc s uri with
  | some _ => Except.error StoreError.DuplicateDocument
  | none => Except.ok (s ++ [Document.mk uri text version])

/-- Embeds `lsp_did_open` (server.py): a single `workspace.put_document`
call. -/
def lsp_did_open (s : Store) (uri text : String) (version : Nat) :
    Except StoreError Store :=
  open_document s uri text version

/-- The analysis façade: the jedi script operations the handlers invoke,
abstracted as functions of the document text and the request position. -/
structure Engine where
  completions : String → Position → List Completion
  goto_definitions : String → Position → List Defn
  goto_assignments : String → Position → List Defn
  usages : String → Position → List Defn

/-- Modelled from the spec: the document-reading half of
`server_utils.get_jedi_script` (not under src/): fetch the tracked document's
text for the request's uri; an untracked uri is an `UnknownDocument`
failure (§4.1 snapshot). -/
def get_document_text (s : Store) (uri : String) : Except StoreError String :=
  match lookupDoc s uri with
  | some d => Except.ok d.text
  | none => Except.error StoreError.UnknownDocument

/-- The `lsp_completion` handler with the server state threaded through: the
source reads the workspace and never writes it. -/
def lsp_completion_handler (eng : Engine) (s : Store) (uri : String)
    (pos : Position) : Store × Except StoreError CompletionList :=
  (s, (get_document_text s uri).map (fun t => lsp_completion (eng.completions t pos)))

/-- The `lsp_definition` handler with the server state threaded through. -/
def lsp_definition_handler (eng : Engine) (s : Store) (uri : String)
    (pos : Position) : Store × Except StoreError (List Location) :=
  (s, (get_document_text s uri).map
    (fun t => locations_from_definitions (eng.goto_assignments t pos)))

/-- The `lsp_hover` handler with the server state threaded through. -/
def lsp_hover_handler (eng : Engine) (s : Store) (uri : String)
    (pos : Position) : Store × Except StoreError Hover :=
  (s, (get_document_text s uri).map (fun t => lsp_hover (eng.goto_definitions t pos)))

/-- The `lsp_references` handler with the server state threaded through. -/
def lsp_references_handler (eng : Engine) (s : Store) (uri : String)
    (pos : Position) : Store × Except StoreError (List Location) :=
  (s, (get_document_text s uri).map
    (fun t => locations_from_definitions (eng.usages t pos)))

/-- The `lsp_rename` handler with the server state threaded through: it only
computes and returns the proposed workspace edit. -/
def lsp_rename_handler (eng : Engine) (s : Store) (uri : String)
    (pos : Position) (newName : String) :
    Store × Except StoreError (Option WorkspaceEdit) :=
  (s, (get_document_text s uri).map
    (fun t => lsp_rename (locations_from_definitions (eng.usages t pos)) newName))

/-- The UTF-16 length of one character: astral-plane characters are encoded
as a surrogate pair, i.e. two code units; all others as one. -/
def utf16Len (c : Char) : Nat :=
  if c.toNat < 0x10000 then 1 else 2

/-- Modelled from the spec: the within-line step of the Position Translator's
`toOffset` (§4.2, not under src/): walk the code units of the target line,
counting surrogate pairs as two units, converting a UTF-16 character count
into a scalar (code point) offset; fails when the count overruns the line or
falls inside a surrogate pair. -/
def encLine : List Char → Nat → Option Nat
  | _, 0 => some 0
  | [], _ + 1 => none
  | c :: cs, k + 1 =>
    if c = Char.ofNat 10 then none
    else if utf16Len c ≤ k + 1 then
      (encLine cs (k + 1 - utf16Len c)).map (fun o => o + 1)
    else none

/-- Walk `line` line boundaries, then convert within the target line. -/
def toOffsetAux : List Char → Nat → Nat → Option Nat
  | cs, 0, k => encLine cs k
  | [], _ + 1, _ => none
  | c :: cs, l + 1, k =>
    if c = Char.ofNat 10 then (toOffsetAux cs l k).map (fun o => o + 1)
    else (toOffsetAux cs (l + 1) k).map (fun o => o + 1)

/-- Modelled from the spec: the Position Translator's `toOffset(text,
position)` (§4.2, not under src/): text is a buffer of Unicode scalar values,
the result a scalar offset into it; the position's character is counted in
UTF-16 code units; fails (`PositionOutOfRange`, here `none`) when line or
character exceeds the text's bounds. -/
def toOffset (text : List Char) (p : Position) : Option Nat :=
  toOffsetAux text p.line p.character

/-- Walk the buffer, accumulating the current line and UTF-16 character. -/
def fromOffsetAux : List Char → Nat → Nat → Nat → Option Position
  | _, 0, line, ch => some (Position.mk line ch)
  | [], _ + 1, _, _ => none
  | c :: cs, o + 1, line, ch =>
    if c = Char.ofNat 10 then fromOffsetAux cs o (line + 1) 0
    else fromOffsetAux cs o line (ch + utf16Len c)

/-- Modelled from the spec: the Position Translator's `fromOffset(text,
offset)` (§4.2, not under src/), the inverse direction, implemented against
the same code-unit counting (`utf16Len`) as `toOffset`. -/
def fromOffset (text : List Char) (o : Nat) : Option Position :=
  fromOffsetAux text o 0 0

lemma encLine_fromOffsetAux :
    ∀ (cs : List Char) (k o L C : Nat), encLine cs k = some o →
      fromOffsetAux cs o L C = some (Position.mk L (C + k)) := by
  intro cs
  induction cs with
  | nil =>
    intro k o L C h
    cases k with
    | zero =>
      simp only [encLine, Option.some.injEq] at h
      subst h
      rfl
    | succ k => simp [encLine] at h
  | cons c cs ih =>
    intro k o L C h
    cases k with
    | zero =>
      simp only [encLine, Option.some.injEq] at h
      subst h
      rfl
    | succ k =>
      simp only [encLine] at h
      by_cases hc : c = Char.ofNat 10
      · simp [hc] at h
      · rw [if_neg hc] at h
        by_cases hle : utf16Len c ≤ k + 1
        · rw [if_pos hle, Option.map_eq_some'] at h
          obtain ⟨o', ho', rfl⟩ := h
          simp only [fromOffsetAux, if_neg hc]
          rw [ih _ _ _ _ ho']
          have harith : C + utf16Len c + (k + 1 - utf16Len c) = C + (k + 1) := by
            omega
          rw [harith]
        · rw [if_neg hle] at h
          cases h

lemma toOffsetAux_fromOffsetAux :
    ∀ (cs : List Char) (l k o L C : Nat), toOffsetAux cs l k = some o →
      fromOffsetAux cs o L C = some (Position.mk (L + l) ((if l = 0 then C else 0) + k)) := by
  intro cs
  induction cs with
  | nil =>
    intro l k o L C h
    cases l with
    | zero =>
      have := encLine_fromOffsetAux [] k o L C h
      simpa using this
    | succ l => simp [toOffsetAux] at h
  | cons c cs ih =>
    intro l k o L C h
    cases l with
    | zero =>
      have := encLine_fromOffsetAux (c :: cs) k o L C h
      simpa using this
    | succ l =>
      simp only [toOffsetAux] at h
      by_cases hc : c = Char.ofNat 10
      · rw [if_pos hc, Option.map_eq_some'] at h
        obtain ⟨o', ho', rfl⟩ := h
        simp only [fromOffsetAux, if_pos hc]
        rw [ih _ _ _ _ _ ho']
        have harith : L + 1 + l = L + (l + 1) := by omega
        rw [harith]
        cases l with
        | zero => rfl
        | succ l => rfl
      · rw [if_neg hc, Option.map_eq_some'] at h
        obtain ⟨o', ho', rfl⟩ := h
        simp only [fromOffsetAux, if_neg hc]
        rw [ih _ _ _ _ _ ho']
        simp

/-- C5: for every text and every valid position `p` (character counted in
UTF-16 code units, astral-plane characters counting as surrogate pairs),
decoding the offset produced by `toOffset` with `fromOffset` yields `p`
again: the translator directions are exact inverses on every offset a
round trip through `toOffset` produces. -/
theorem toOffset_fromOffset (text : List Char) (p : Position) (o : Nat)
    (h : toOffset text p = some o) :
    fromOffset text o = some p := by
  rcases p with ⟨pl, pc⟩
  have := toOffsetAux_fromOffsetAux text pl pc o 0 0 h
  simpa [fromOffset] using this

/-- C5 witness: a text whose first line contains the astral-plane character
U+1D538 (UTF-16 surrogate pair) and a second line; position (1, 1) encodes to
scalar offset 5 and decodes back, and position (0, 3) — three UTF-16 units
into the first line, i.e. past `a` and the surrogate pair — encodes to scalar
offset 2 and decodes back. -/
theorem toOffset_fromOffset_witness :
    fromOffset ['a', '𝔸', 'b', Char.ofNat 10, 'c'] 5 = some (Position.mk 1 1) ∧
    fromOffset ['a', '𝔸', 'b', Char.ofNat 10, 'c'] 2 = some (Position.mk 0 3) :=
  And.intro
    (toOffset_fromOffset ['a', '𝔸', 'b', Char.ofNat 10, 'c'] (Position.mk 1 1) 5
      (by decide))
    (toOffset_fromOffset ['a', '𝔸', 'b', Char.ofNat 10, 'c'] (Position.mk 0 3) 2
      (by decide))

lemma addEdit_keys (u : String) (e : TextEdit) :
    ∀ ch : List (String × List TextEdit),
      (addEdit ch u e).map Prod.fst = insKey (ch.map Prod.fst) u := by
  intro ch
  induction ch with
  | nil => simp [addEdit, insKey]
  | cons p rest ih =>
    by_cases h : p.1 = u
    · simp [addEdit, h, insKey]
    · have hne : ¬u = p.1 := fun hu => h hu.symm
      by_cases h2 : u ∈ rest.map Prod.fst
      · simp [addEdit, h, insKey, hne, h2] at ih ⊢
        simpa [insKey, h2] using ih
      · simp [addEdit, h, insKey, hne, h2] at ih ⊢
        simpa [insKey, h2] using ih

lemma addEdit_findEdits (u' : String) (e : TextEdit) :
    ∀ (ch : List (String × List TextEdit)) (u : String),
      findEdits (addEdit ch u' e) u =
        if u = u' then findEdits ch u ++ [e] else findEdits ch u := by
  intro ch
  induction ch with
  | nil =>
    intro u
    by_cases h : u = u'
    · simp [addEdit, findEdits, h]
    · have h' : ¬u' = u := fun hu => h hu.symm
      simp [addEdit, findEdits, h, h']
  | cons p rest ih =>
    intro u
    by_cases hp : p.1 = u'
    · by_cases hu : u = u'
      · have : p.1 = u := by rw [hp, hu]
        simp [addEdit, findEdits, hp, hu, this]
      · have hu' : ¬u' = u := fun hh => hu hh.symm
        simp [addEdit, findEdits, hp, hu, hu']
    · by_cases hpu : p.1 = u
      · have hu : ¬u = u' := by rw [← hpu]; exact hp
        simp [addEdit, findEdits, hp, hpu, hu]
      · simp [addEdit, findEdits, hp, hpu, ih u]

lemma renameLoop_keys (newName : String) :
    ∀ (locs : List Location) (acc : List (String × List TextEdit)),
      (renameLoop newName acc locs).map Prod.fst =
        (locs.map Location.uri).foldl insKey (acc.map Prod.fst) := by
  intro locs
  induction locs with
  | nil => intro acc; rfl
  | cons loc rest ih =>
    intro acc
    simp only [renameLoop, List.map_cons, List.foldl_cons]
    rw [ih, addEdit_keys]

lemma renameLoop_findEdits (newName : String) :
    ∀ (locs : List Location) (acc : List (String × List TextEdit)) (u : String),
      findEdits (renameLoop newName acc locs) u =
        findEdits acc u ++
          (locs.filter (fun l => l.uri = u)).map
            (fun l => TextEdit.mk l.range newName) := by
  intro locs
  induction locs with
  | nil =>
    intro acc u
    simp only [renameLoop, List.filter_nil, List.map_nil, List.append_nil]
  | cons loc rest ih =>
    intro acc u
    simp only [renameLoop]
    rw [ih, addEdit_findEdits]
    by_cases h : u = loc.uri
    · subst h
      simp [List.filter_cons, List.append_assoc]
    · have h' : ¬loc.uri = u := fun hh => h hh.symm
      simp [h, h', List.filter_cons]

lemma insKey_nodup (ks : List String) (u : String) (h : ks.Nodup) :
    (insKey ks u).Nodup := by
  unfold insKey
  by_cases hm : u ∈ ks
  · simpa [hm] using h
  · simp only [hm, if_false]
    simp [List.nodup_append, h, hm]

lemma foldl_insKey_nodup :
    ∀ (us ks : List String), ks.Nodup → (us.foldl insKey ks).Nodup := by
  intro us
  induction us with
  | nil => intro ks h; exact h
  | cons u rest ih =>
    intro ks h
    exact ih (insKey ks u) (insKey_nodup ks u h)

/-- C1: `lsp_rename` on an empty reference-location set returns the "no edit"
outcome `none`; on a non-empty set it returns a workspace edit whose mapping
has exactly one key per distinct uri of the location set, keys in first-seen
order of the locations, no duplicate keys, and under each uri the ordered
list — in the locations' order — of text edits replacing that location's
range with the client-supplied new name. -/
theorem lsp_rename_groups_locations (locations : List Location) (newName : String) :
    (locations = [] → lsp_rename locations newName = none) ∧
    (locations ≠ [] →
      ∃ w, lsp_rename locations newName = some w ∧
        w.changes.map Prod.fst = firstSeen (locations.map Location.uri) ∧
        (w.changes.map Prod.fst).Nodup ∧
        ∀ u, findEdits w.changes u =
          (locations.filter (fun l => l.uri = u)).map
            (fun l => TextEdit.mk l.range newName)) := by
  constructor
  · intro h
    subst h
    rfl
  · intro h
    refine ⟨WorkspaceEdit.mk (renameLoop newName [] locations), ?_, ?_, ?_, ?_⟩
    · unfold lsp_rename
      rw [if_neg]
      simpa [List.isEmpty_iff] using h
    · show (renameLoop newName [] locations).map Prod.fst = _
      rw [renameLoop_keys]
      rfl
    · show ((renameLoop newName [] locations).map Prod.fst).Nodup
      rw [renameLoop_keys]
      exact foldl_insKey_nodup _ _ (by simp)
    · intro u
      show findEdits (renameLoop newName [] locations) u = _
      rw [renameLoop_findEdits]
      rfl

/-- C1 witness: three reference locations spanning two uris; the rename edit
has the two uris as keys in first-seen order and the per-uri edits in the
locations' order, each replacing the location's range with the new name. -/
theorem lsp_rename_groups_locations_witness :
    ∃ w, lsp_rename
        [Location.mk "file:///a.py" (Range.mk (Position.mk 0 0) (Position.mk 0 4)),
         Location.mk "file:///b.py" (Range.mk (Position.mk 3 2) (Position.mk 3 6)),
         Location.mk "file:///a.py" (Range.mk (Position.mk 9 0) (Position.mk 9 4))]
        "shiny" = some w ∧
      w.changes.map Prod.fst =
        firstSeen
          ([Location.mk "file:///a.py" (Range.mk (Position.mk 0 0) (Position.mk 0 4)),
            Location.mk "file:///b.py" (Range.mk (Position.mk 3 2) (Position.mk 3 6)),
            Location.mk "file:///a.py" (Range.mk (Position.mk 9 0) (Position.mk 9 4))].map
            Location.uri) ∧
      (w.changes.map Prod.fst).Nodup ∧
      ∀ u, findEdits w.changes u =
        ([Location.mk "file:///a.py" (Range.mk (Position.mk 0 0) (Position.mk 0 4)),
          Location.mk "file:///b.py" (Range.mk (Position.mk 3 2) (Position.mk 3 6)),
          Location.mk "file:///a.py" (Range.mk (Position.mk 9 0) (Position.mk 9 4))].filter
          (fun l => l.uri = u)).map (fun l => TextEdit.mk l.range "shiny") :=
  (lsp_rename_groups_locations
    [Location.mk "file:///a.py" (Range.mk (Position.mk 0 0) (Position.mk 0 4)),
     Location.mk "file:///b.py" (Range.mk (Position.mk 3 2) (Position.mk 3 6)),
     Location.mk "file:///a.py" (Range.mk (Position.mk 9 0) (Position.mk 9 4))]
    "shiny").2 (List.cons_ne_nil _ _)

/-- C2 counterexample: the claim's placeholder value is wrong on both sides.
With a non-empty definition sequence whose first entry has no documentation
(jedi's `docstring()` returns the empty string), the handler returns that
empty docstring, not the claimed placeholder "no documentation available";
and with an empty sequence it returns the literal
"No docstring definition found.", again not the claimed placeholder. -/
theorem lsp_hover_placeholder_counterexample :
    (lsp_hover
        [Defn.mk "file:///a.py" (Range.mk (Position.mk 0 0) (Position.mk 0 1)) ""]).contents
        ≠ "no documentation available" ∧
    (lsp_hover []).contents ≠ "no documentation available" := by
  constructor
  · decide
  · decide

/-- C2 amended: the handler returns the first result's docstring (even when
that docstring is empty, i.e. the entry has no documentation) whenever the
definition sequence is non-empty, and the fixed placeholder string
"No docstring definition found." when the sequence is empty; being a total
function of the definition sequence, it never fails when the engine finds
nothing. -/
theorem lsp_hover_first_or_placeholder (defs : List Defn) :
    (defs = [] → (lsp_hover defs).contents = "No docstring definition found.") ∧
    (∀ d, defs.head? = some d → (lsp_hover defs).contents = d.docstring) := by
  constructor
  · intro h
    subst h
    rfl
  · intro d h
    cases defs with
    | nil => cases h
    | cons d0 rest =>
      simp only [List.head?_cons, Option.some.injEq] at h
      subst h
      rfl

/-- C2 witness: the empty sequence yields the placeholder; a sequence whose
first entry has docstring "a docstring" yields exactly that docstring. -/
theorem lsp_hover_first_or_placeholder_witness :
    (lsp_hover []).contents = "No docstring definition found." ∧
    (lsp_hover
        [Defn.mk "file:///a.py" (Range.mk (Position.mk 0 0) (Position.mk 0 1))
          "a docstring"]).contents = "a docstring" :=
  And.intro
    ((lsp_hover_first_or_placeholder []).1 rfl)
    ((lsp_hover_first_or_placeholder
        [Defn.mk "file:///a.py" (Range.mk (Position.mk 0 0) (Position.mk 0 1))
          "a docstring"]).2
      (Defn.mk "file:///a.py" (Range.mk (Position.mk 0 0) (Position.mk 0 1))
        "a docstring") rfl)

/-- C4: for every completion sequence the engine returns, the handler's
completion list has `is_incomplete = false`, the same length as the engine's
sequence, and at every index exactly the item built from the engine's
completion at that index — a length- and order-preserving map. -/
theorem lsp_completion_preserves_order (comps : List Completion) :
    (lsp_completion comps).is_incomplete = false ∧
    (lsp_completion comps).items.length = comps.length ∧
    ∀ i : Nat, (lsp_completion comps).items[i]? = (comps[i]?).map completionItemOf := by
  refine ⟨rfl, by simp [lsp_completion], fun i => ?_⟩
  simp [lsp_completion]

lemma applyChanges_incremental :
    ∀ (cs : List ContentChange) (d : Document),
      (∃ r t, ContentChange.incremental r t ∈ cs) →
      applyChanges d cs = Except.error StoreError.UnsupportedSyncMode := by
  intro cs
  induction cs with
  | nil =>
    rintro d ⟨r, t, h⟩
    cases h
  | cons c rest ih =>
    rintro d ⟨r, t, h⟩
    cases c with
    | incremental r' t' => rfl
    | full t' =>
      have h' : ContentChange.incremental r t ∈ rest := by
        rcases List.mem_cons.mp h with h1 | h2
        · cases h1
        · exact h2
      simp only [applyChanges, applyChangeDoc]
      exact ih _ ⟨r, t, h'⟩

/-- C3: the store supports only full-document replacement: for every tracked
document and every change payload containing a range-based incremental edit,
`applyChange` fails with `UnsupportedSyncMode` instead of applying it. -/
theorem applyChange_rejects_incremental (s : Store) (uri : String)
    (cs : List ContentChange) (d : Document)
    (hd : lookupDoc s uri = some d)
    (hc : ∃ r t, ContentChange.incremental r t ∈ cs) :
    applyChange s uri cs = Except.error StoreError.UnsupportedSyncMode := by
  have h1 : applyChange s uri cs =
      Except.map (fun d' => updateDoc s uri d') (applyChanges d cs) := by
    unfold applyChange
    rw [hd]
  rw [h1, applyChanges_incremental cs d hc]
  rfl

/-- C3 witness: a store tracking one document rejects a singleton incremental
change payload with `UnsupportedSyncMode`. -/
theorem applyChange_rejects_incremental_witness :
    applyChange [Document.mk "file:///a.py" "x = 1" 1] "file:///a.py"
        [ContentChange.incremental (Range.mk (Position.mk 0 0) (Position.mk 0 1)) "y"]
      = Except.error StoreError.UnsupportedSyncMode :=
  applyChange_rejects_incremental _ _ _ (Document.mk "file:///a.py" "x = 1" 1)
    (by decide)
    ⟨Range.mk (Position.mk 0 0) (Position.mk 0 1), "y", List.mem_singleton.mpr rfl⟩

lemma lookupDoc_uri :
    ∀ (s : Store) (uri : String) (d : Document),
      lookupDoc s uri = some d → d.uri = uri := by
  intro s
  induction s with
  | nil => intro uri d h; cases h
  | cons d0 rest ih =>
    intro uri d h
    simp only [lookupDoc] at h
    by_cases h0 : d0.uri = uri
    · rw [if_pos h0] at h
      cases h
      exact h0
    · rw [if_neg h0] at h
      exact ih uri d h

lemma lookupDoc_updateDoc :
    ∀ (s : Store) (uri : String) (d d' : Document),
      lookupDoc s uri = some d → d'.uri = uri →
      lookupDoc (updateDoc s uri d') uri = some d' := by
  intro s
  induction s with
  | nil => intro uri d d' h _; cases h
  | cons d0 rest ih =>
    intro uri d d' h hd'
    simp only [lookupDoc, updateDoc] at h ⊢
    by_cases h0 : d0.uri = uri
    · rw [if_pos h0]
      simp [lookupDoc, hd']
    · rw [if_neg h0] at h
      rw [if_neg h0]
      simp only [lookupDoc, if_neg h0]
      exact ih uri d d' h hd'

lemma didChangeLoop_version :
    ∀ (cs : List ContentChange) (s : Store) (uri : String) (d : Document) (s' : Store),
      lookupDoc s uri = some d → didChangeLoop s uri cs = Except.ok s' →
      ∃ d', lookupDoc s' uri = some d' ∧ d'.version = d.version + cs.length := by
  intro cs
  induction cs with
  | nil =>
    intro s uri d s' hd h
    cases h
    exact ⟨d, hd, by simp⟩
  | cons c rest ih =>
    intro s uri d s' hd h
    simp only [didChangeLoop] at h
    cases c with
    | incremental r t =>
      have hac : applyChange s uri [ContentChange.incremental r t]
          = Except.error StoreError.UnsupportedSyncMode :=
        applyChange_rejects_incremental s uri _ d hd
          ⟨r, t, List.mem_singleton.mpr rfl⟩
      rw [hac] at h
      cases h
    | full t =>
      have hac : applyChange s uri [ContentChange.full t]
          = Except.ok (updateDoc s uri (Document.mk d.uri t (d.version + 1))) := by
        unfold applyChange
        rw [hd]
        rfl
      rw [hac] at h
      have hlu : lookupDoc (updateDoc s uri (Document.mk d.uri t (d.version + 1))) uri
          = some (Document.mk d.uri t (d.version + 1)) :=
        lookupDoc_updateDoc s uri d (Document.mk d.uri t (d.version + 1)) hd
          (lookupDoc_uri s uri d hd)
      obtain ⟨d', hd', hv⟩ := ih _ uri _ s' hlu h
      refine ⟨d', hd', ?_⟩
      have hv' : d'.version = d.version + 1 + rest.length := by
        simpa using hv
      simp only [List.length_cons]
      omega

/-- C6: every applied change strictly increases a document's version, and
after a did-change notification carrying N content changes is applied
successfully, the tracked document's version equals the initial version
plus N. -/
theorem lsp_did_change_version_plus_n :
    (∀ (d : Document) (c : ContentChange) (d' : Document),
      applyChangeDoc d c = Except.ok d' → d.version < d'.version) ∧
    (∀ (s : Store) (uri : String) (cs : List ContentChange) (d : Document) (s' : Store),
      lookupDoc s uri = some d → lsp_did_change s uri cs = Except.ok s' →
      ∃ d', lookupDoc s' uri = some d' ∧ d'.version = d.version + cs.length) := by
  constructor
  · intro d c d' h
    cases c with
    | full t =>
      cases h
      simp
    | incremental r t => cases h
  · intro s uri cs d s' hd h
    unfold lsp_did_change at h
    by_cases hcs : cs.isEmpty
    · rw [if_pos hcs] at h
      cases h
      have : cs = [] := List.isEmpty_iff.mp hcs
      subst this
      exact ⟨d, hd, by simp⟩
    · rw [if_neg hcs] at h
      exact didChangeLoop_version cs s uri d s' hd h

/-- C6 witness: one full change bumps version 1 to 2; a did-change carrying
two full changes on a store tracking version 1 leaves the document at
version 3 = 1 + 2. -/
theorem lsp_did_change_version_plus_n_witness :
    (Document.mk "file:///a.py" "x" 1).version < (Document.mk "file:///a.py" "y" 2).version ∧
    ∃ d', lookupDoc [Document.mk "file:///a.py" "z" 3] "file:///a.py" = some d' ∧
      d'.version = (Document.mk "file:///a.py" "x" 1).version + 2 :=
  And.intro
    (lsp_did_change_version_plus_n.1 (Document.mk "file:///a.py" "x" 1)
      (ContentChange.full "y") (Document.mk "file:///a.py" "y" 2) rfl)
    (lsp_did_change_version_plus_n.2 [Document.mk "file:///a.py" "x" 1] "file:///a.py"
      [ContentChange.full "y", ContentChange.full "z"] (Document.mk "file:///a.py" "x" 1)
      [Document.mk "file:///a.py" "z" 3] rfl rfl)

/-- C7: a did-change notification whose content-change list is empty is a
no-op: the handler succeeds (no error) and returns the store — every
document's text and version — unchanged. -/
theorem lsp_did_change_empty_noop (s : Store) (uri : String) :
    lsp_did_change s uri [] = Except.ok s := rfl

/-- C8: opening a uri that the store already tracks fails with
`DuplicateDocument`. -/
theorem lsp_did_open_duplicate (s : Store) (uri t : String) (v : Nat)
    (d : Document) (hd : lookupDoc s uri = some d) :
    lsp_did_open s uri t v = Except.error StoreError.DuplicateDocument := by
  unfold lsp_did_open open_document
  rw [hd]

/-- C8 witness: re-opening the tracked uri "file:///a.py" is rejected. -/
theorem lsp_did_open_duplicate_witness :
    lsp_did_open [Document.mk "file:///a.py" "x" 1] "file:///a.py" "y" 1
      = Except.error StoreError.DuplicateDocument :=
  lsp_did_open_duplicate [Document.mk "file:///a.py" "x" 1] "file:///a.py" "y" 1
    (Document.mk "file:///a.py" "x" 1) (by decide)

/-- C10: the five read-request handlers (completion, definition, hover,
references, rename) return the document store exactly as they received it:
they only read; in particular rename returns a proposed workspace edit
without applying it to any tracked document. -/
theorem read_handlers_preserve_store (eng : Engine) (s : Store) (uri : String)
    (pos : Position) (newName : String) :
    (lsp_completion_handler eng s uri pos).1 = s ∧
    (lsp_definition_handler eng s uri pos).1 = s ∧
    (lsp_hover_handler eng s uri pos).1 = s ∧
    (lsp_references_handler eng s uri pos).1 = s ∧
    (lsp_rename_handler eng s uri pos newName).1 = s :=
  ⟨rfl, rfl, rfl, rfl, rfl⟩
